import Mathlib

/-!
Verification of the reconciliation and batched-write engine of
`src/data_management.py` (storagetooling synchronization job).

The Python module is shallowly embedded: each relevant function is
translated to an executable Lean definition over explicit state
(association lists for Python dicts, lists of rows for database tables,
an explicit store/cache pair for the pyodbc connection plus the
module-level table cache).  Statement execution is modelled as the data
it writes; a successful write appends to / updates the modelled store.
-/

namespace DataManagement

/-- A Python dict of column name to column value, as an ordered
association list (Python dicts preserve insertion order). -/
abbrev Rec := List (String × String)

/-- `record_dict[column]` for the dictionaries handed to the writers:
the first value bound to the key.  (The claims below only apply it to
records that hold the key; a missing key raises `KeyError` in Python.) -/
def dictGet (r : Rec) (k : String) : String :=
  ((r.find? (fun p => p.1 = k)).map Prod.snd).getD ""

/-- Python's `value.replace("'", "''")`: every single-quote character is
doubled, all other characters kept. -/
def doubleQuotes (s : String) : String :=
  String.mk (s.data.foldr (fun c acc => if c = '\'' then c :: c :: acc else c :: acc) [])

/-- Lines 691-692 of `insert_data_to_table`:
`if "'" in record_dict[column]: record_dict[column] = record_dict[column].replace("'","''")`. -/
def escapeValue (s : String) : String :=
  if s.data.contains '\'' then doubleQuotes s else s

/-- The column filter both writers apply:
`if column not in ('datecreated', 'ID')` (lines 688 and 745/765). -/
def keptColumns (columns_list : List String) : List String :=
  columns_list.filter (fun column => column != "datecreated" && column != "ID")

/-- The INSERT statement `insert_data_to_table` builds, by its pieces:
the kept column names (joined into the column list of the statement) and
the quoted value fields, in the record's key order. -/
structure InsertStatement where
  table : String
  columns : List String
  values : List String
  deriving DecidableEq

/-- `insert_data_to_table` (lines 659-708), up to the point where the
statement text is executed: the column fields are the record's keys
without `datecreated`/`ID`, and each value field is the (quote-escaped)
value wrapped in single quotes. -/
def insert_data_to_table (table_name : String) (record_dict : Rec) : InsertStatement :=
  let columns_list := record_dict.map Prod.fst
  let kept := keptColumns columns_list
  { table := table_name
    columns := kept
    values := kept.map (fun column => "'" ++ escapeValue (dictGet record_dict column) ++ "'") }

/-- `list(record_list[0].keys())` of `insert_data_to_table_batch`
(line 741): the key list of the first record. -/
def batchColumns (record_list : List Rec) : List String :=
  (record_list.headD []).map Prod.fst

/-- One row of value fields of the batched INSERT (lines 764-771).  The
quote-escaping of the single-row path is commented out in the source
(lines 747-752), so each value is wrapped in quotes verbatim. -/
def batchValueRow (columns_list : List String) (entry : Rec) : List String :=
  (keptColumns columns_list).map (fun column => "'" ++ dictGet entry column ++ "'")

/-- The flush loop of `insert_data_to_table_batch` (lines 759-797):
value rows accumulate; when the accumulated count reaches a multiple of
the block size the statement is executed and committed (one flush) and a
fresh statement is started; a trailing partial block is flushed at the
end.  Returns the flushed statements, each as its list of value rows. -/
def batchFlushLoop (block_size : Nat) (columns_list : List String)
    (record_list : List Rec) (acc : List (List String)) : List (List (List String)) :=
  match record_list with
  | [] => if acc.length > 0 then [acc] else []
  | entry :: rest =>
    let acc2 := acc ++ [batchValueRow columns_list entry]
    if acc2.length % block_size = 0 ∧ acc2.length ≠ 0 then
      acc2 :: batchFlushLoop block_size columns_list rest []
    else
      batchFlushLoop block_size columns_list rest acc2

/-- What `insert_data_to_table_batch` executes: the shared kept column
fields and the flushed blocks of value rows. -/
structure BatchResult where
  table : String
  columns : List String
  flushes : List (List (List String))
  deriving DecidableEq

/-- `insert_data_to_table_batch` (lines 710-800).  `none` models the
`IndexError` Python raises on an empty record list (`record_list[0]`);
all callers guard with a non-emptiness check. -/
def insert_data_to_table_batch (table_name : String) (record_list : List Rec)
    (tranaction_block_size : Nat) : Option BatchResult :=
  match record_list with
  | [] => none
  | _ :: _ =>
    some { table := table_name
           columns := keptColumns (batchColumns record_list)
           flushes := batchFlushLoop tranaction_block_size (batchColumns record_list) record_list [] }

/-- Python's `s[:i]` slice for an `Int` bound: a non-negative bound takes
that many leading characters, a negative bound `-k` drops the last `k`
(empty when `k` exceeds the length). -/
def pySliceUpto (s : String) (i : Int) : String :=
  if 0 ≤ i then String.mk (s.data.take i.toNat)
  else String.mk (s.data.take (s.data.length - i.natAbs))

/-- Lines 264-266 of `__format_sannav_insert_data`:
`trunk_count = -abs(len(device) - 50); device = device[:trunk_count]`
applied when the resolved device name is longer than 50 characters. -/
def truncate_device (device : String) : String :=
  if device.data.length > 50 then
    pySliceUpto device (-((((device.data.length : Int) - 50).natAbs : Nat) : Int))
  else device

/-- Lines 251-262 of `__format_sannav_insert_data`: resolution of the
`device` value from the optional `remoteDevice` / `remotePort` keys
(`none` models a key absent from the raw record; `device` starts at the
default `'none'` and keeps it when no branch assigns). -/
def resolveDevice (remoteDevice remotePort : Option String) : String :=
  match remoteDevice, remotePort with
  | some rd, some rp => if rd ≠ "" ∨ rd ≠ "localhost" then rd else rp
  | some rd, none => if rd ≠ "" then rd else "none"
  | none, some rp => if rp ≠ "" then (if rp ≠ "" then rp else "none") else "none"
  | none, none => "none"

/-- One raw customer record of the MTEST export (the keys
`__format_customer_insert_data` reads: `L`, `NAME`, `ID`,
`STACKNUMBER`). -/
structure RawCustomer where
  L : String
  NAME : String
  ID : String
  STACKNUMBER : String
  deriving DecidableEq

/-- One row of the `customers` table as this code writes it. -/
structure CustomerRow where
  contextid : String
  customer : String
  status : String
  stackid : String
  deriving DecidableEq

/-- `__format_customer_insert_data` (lines 174-205): the live flag `'Y'`
maps to `'1'`, anything else to `'0'`; single quotes in the name are
doubled; the returned dictionary keys `contextid`, `customer`, `status`,
`stackid`. -/
def format_customer_insert_data (customer : RawCustomer) : CustomerRow :=
  let status := if customer.L = "Y" then "1" else "0"
  let customer_name :=
    if customer.NAME.data.contains '\'' then doubleQuotes customer.NAME else customer.NAME
  { contextid := customer.ID
    customer := customer_name
    status := status
    stackid := customer.STACKNUMBER }

/-- The store operations `update_customer_data` can issue against the
`customers` table, in issue order. -/
inductive CustomerOp where
  | clearTable (table : String)
  | insertBatch (table : String) (rows : List CustomerRow)
  | readCache (table : String)
  deriving DecidableEq

/-- Outcome of one `update_customer_data` pass: the operation trace, the
resulting `customers` table, and whether the pass stopped with
`sys.exit` (a failed table clear). -/
structure CustomerPassResult where
  trace : List CustomerOp
  table : List CustomerRow
  halted : Bool
  deriving DecidableEq

/-- `update_customer_data` (lines 802-841) against a modelled store:
format all incoming records (the async gather returns them in input
order), clear the `customers` table, and — only when the clear reported
success — batch-insert the formatted set and reload the cache.  A failed
clear leaves the table as it was and exits
(`sys.exit("No update to customers table due to table clear failure.")`). -/
def update_customer_data (prior : List CustomerRow) (incoming : List RawCustomer)
    (clear_ok : Bool) : CustomerPassResult :=
  let results := incoming.map format_customer_insert_data
  if clear_ok then
    if results.length > 0 then
      { trace := [CustomerOp.clearTable "customers",
                  CustomerOp.insertBatch "customers" results,
                  CustomerOp.readCache "customers"]
        table := results
        halted := false }
    else
      { trace := [CustomerOp.clearTable "customers"]
        table := []
        halted := false }
  else
    { trace := [CustomerOp.clearTable "customers"]
      table := prior
      halted := true }

/-- One raw stack record from the DNS topology source (the keys the
stack portion of `update_stack_data` reads). -/
structure StackRecord where
  stack : String
  local_location : String
  prod_location : String
  remote_location : String
  deriving DecidableEq

/-- One row of the `stacks` table as cached (natural key `Stack` plus
the three mutable location columns; the store-assigned `ID` plays no
role in this code path). -/
structure StackRow where
  Stack : String
  locallocation : String
  prodlocation : String
  remotelocation : String
  deriving DecidableEq

/-- `stacks_data_formatted` (lines 915-920). -/
def stacks_data_formatted (record : StackRecord) : StackRow :=
  { Stack := record.stack
    locallocation := record.local_location
    prodlocation := record.prod_location
    remotelocation := record.remote_location }

/-- The cache search of lines 926-929:
`[item for item in storagetooling_tables_cache.stacks if item['Stack'] == record['stack']]`. -/
def searchStack (cache : List StackRow) (key : String) : List StackRow :=
  cache.filter (fun item => item.Stack = key)

/-- The column-diff block of lines 940-954: the update dictionary holds
exactly the mutable columns whose incoming value differs from the cached
row, in the order the code checks them. -/
def stacks_columns_update (incoming table_entry : StackRow) : List (String × String) :=
  (if incoming.locallocation ≠ table_entry.locallocation
    then [("locallocation", incoming.locallocation)] else []) ++
  (if incoming.prodlocation ≠ table_entry.prodlocation
    then [("prodlocation", incoming.prodlocation)] else []) ++
  (if incoming.remotelocation ≠ table_entry.remotelocation
    then [("remotelocation", incoming.remotelocation)] else [])

/-- One `SET` clause of the UPDATE statement `update_data_table` builds
(lines 863-870) applied to one row: the named column is assigned its new
value. -/
def applyOneStackUpdate (r : StackRow) (u : String × String) : StackRow :=
  if u.1 = "locallocation" then { r with locallocation := u.2 }
  else if u.1 = "prodlocation" then { r with prodlocation := u.2 }
  else if u.1 = "remotelocation" then { r with remotelocation := u.2 }
  else r

/-- Applying all `SET` clauses of one UPDATE statement to one row. -/
def applyStackUpdates (updates : List (String × String)) (row : StackRow) : StackRow :=
  updates.foldl applyOneStackUpdate row

/-- The effect on the `stacks` table of executing the UPDATE statement
scoped by `WHERE stack = '<key>'` (lines 956-964 via
`update_data_table`). -/
def runStackUpdateStatement (store : List StackRow) (key : String)
    (updates : List (String × String)) : List StackRow :=
  store.map (fun r => if r.Stack = key then applyStackUpdates updates r else r)

/-- The `stacks` table in the store together with its in-process cache
mirror (`storagetooling_tables_cache.stacks`). -/
structure StackState where
  store : List StackRow
  cache : List StackRow
  deriving DecidableEq

/-- The stack-table portion of one loop iteration of `update_stack_data`
(lines 913-964): look the record's natural key up in the cache; if
absent INSERT the formatted row and reload the cache from the store
(lines 932-937); if present, compute the column diff and issue one
UPDATE exactly when it is non-empty (the cache is not reloaded after an
UPDATE).  Returns the new state and the UPDATE statements issued (each
as its column-update set). -/
def process_stack_record (st : StackState) (record : StackRecord) :
    StackState × List (List (String × String)) :=
  let formatted := stacks_data_formatted record
  match searchStack st.cache record.stack with
  | [] =>
    let store2 := st.store ++ [formatted]
    ({ store := store2, cache := store2 }, [])
  | table_entry :: _ =>
    let upds := stacks_columns_update formatted table_entry
    if upds ≠ [] then
      ({ store := runStackUpdateStatement st.store record.stack upds, cache := st.cache },
        [upds])
    else
      (st, [])

/-- The stack-table portion of `update_stack_data` over the whole source
record list, collecting every UPDATE statement issued, in order. -/
def update_stack_data (st : StackState) (records : List StackRecord) :
    StackState × List (List (String × String)) :=
  match records with
  | [] => (st, [])
  | record :: rest =>
    let step := process_stack_record st record
    let tail := update_stack_data step.1 rest
    (tail.1, step.2 ++ tail.2)

/-- One full stack-reconciliation pass: the orchestrator loads the
`stacks` table into the cache (lines 1298-1302) before
`update_stack_data` runs, so the pass starts with `cache = store`. -/
def run_stack_pass (store : List StackRow) (records : List StackRecord) :
    StackState × List (List (String × String)) :=
  update_stack_data { store := store, cache := store } records

/-- Two stack rows agree on the three mutable location columns (the
columns `update_stack_data` diffs). -/
def mutEq (a b : StackRow) : Prop :=
  a.locallocation = b.locallocation ∧ a.prodlocation = b.prodlocation ∧
    a.remotelocation = b.remotelocation

/-- The cache is the store as of the last reload: same rows except that
a row whose key has been UPDATEd since that reload may be stale. -/
def CacheRel (stale : List String) (cache store : List StackRow) : Prop :=
  List.Forall₂ (fun c s => c.Stack = s.Stack ∧ (c = s ∨ c.Stack ∈ stale)) cache store

/-- The store already reconciles a record: the first store row with the
record's natural key carries the record's three location values. -/
def StoreHas (store : List StackRow) (r : StackRecord) : Prop :=
  ∃ m t, searchStack store r.stack = m :: t ∧ mutEq (stacks_data_formatted r) m

/-- One row of the `webs` table as this code writes it. -/
structure WebRow where
  name : String
  webpoolid : String
  deriving DecidableEq

/-- The cache/store operations the web inner loop issues, in order:
a cache lookup, a single-row INSERT, or a cache reload from the store. -/
inductive WebOp where
  | lookup (table : String) (name : String)
  | insert (table : String) (row : WebRow)
  | readCache (table : String)
  deriving DecidableEq

/-- The `for web in webs_list` loop of `update_stack_data` (lines
1013-1032): each web name is looked up in the `webs` cache and inserted
into the store when absent; the cache is not touched inside the loop. -/
def websLoop (cache store : List WebRow) (webpoolid : String) :
    List String → List WebOp × List WebRow
  | [] => ([], store)
  | web :: rest =>
    let webs_data_formatted : WebRow := { name := web, webpoolid := webpoolid }
    if cache.filter (fun item => item.name = web) = [] then
      let step := websLoop cache (store ++ [webs_data_formatted]) webpoolid rest
      (WebOp.lookup "webs" web :: WebOp.insert "webs" webs_data_formatted :: step.1, step.2)
    else
      let step := websLoop cache store webpoolid rest
      (WebOp.lookup "webs" web :: step.1, step.2)

/-- Lines 1013-1035: the web loop followed by the single
`__read_sql_tables_to_cache('webs', conn)` that only runs after the
loop.  Returns the operation trace, the final store and the final
cache. -/
def process_webs_block (cache store : List WebRow) (webpoolid : String)
    (webs_list : List String) : List WebOp × List WebRow × List WebRow :=
  let looped := websLoop cache store webpoolid webs_list
  (looped.1 ++ [WebOp.readCache "webs"], looped.2, looped.2)

/-- Whether a trace of operations against one cached table ever looks
the table up while a write has not yet been followed by a cache reload
(the boolean is `true` while such a write is pending). -/
def cacheFreshTrace (pending : Bool) : List WebOp → Bool
  | [] => true
  | op :: rest =>
    match op with
    | WebOp.insert _ _ => cacheFreshTrace true rest
    | WebOp.readCache _ => cacheFreshTrace false rest
    | WebOp.lookup _ _ => !pending && cacheFreshTrace pending rest

/-- One row of a simple reference table (`switch`, `zone`, ...): the
store-assigned surrogate `ID` and the natural key `name`. -/
structure SwitchRow where
  ID : Nat
  name : String
  deriving DecidableEq

/-- The surrogate identifier the modelled store assigns to the next
inserted reference row (an identity column: one more than the largest
identifier present). -/
def next_id (store : List SwitchRow) : Nat :=
  store.foldl (fun m r => max m r.ID) 0 + 1

/-- The `switch` iteration of the reference-table loop of
`update_sannav_data` (lines 1119-1134): for each distinct `switchName`
of the source data (Python iterates a `set`; the model deduplicates
keeping first occurrences), the name is looked up in the cache and
`{'name': record}` is inserted into the store when absent; after the
whole loop the cache is reloaded from the store once.
`insert_missing_switch` is the per-name body (lines 1123-1132); the
store assigns the surrogate identifier on insert. -/
def insert_missing_switch (cache : List SwitchRow) (st : List SwitchRow)
    (v : String) : List SwitchRow :=
  if cache.filter (fun item => item.name = v) = [] then
    st ++ [{ ID := next_id st, name := v }]
  else st

/-- The body of the `switch` iteration (see `insert_missing_switch`):
fold the deduplicated source names over the store, then reload the
cache. -/
def update_sannav_switch_table (cache store : List SwitchRow)
    (switch_names : List String) : List SwitchRow × List SwitchRow :=
  let store2 := switch_names.dedup.foldl (insert_missing_switch cache) store
  (store2, store2)

/-- The `switch` iteration of the lookup loop of
`__format_sannav_insert_data` (lines 287-306): the value placed in the
fabric-entity row's switch column is the stringified `ID` of the first
cache row whose `name` equals the record's `switchName`.  `none` models
the `IndexError` Python raises when the name is absent from the cache. -/
def switch_column_value (cache : List SwitchRow) (switchName : String) : Option String :=
  match cache.filter (fun item => item.name = switchName) with
  | [] => none
  | item :: _ => some (toString item.ID)

/-! ### Claim C1 -/

/-- C1: the claim that every column value handed to a write operation is
written with embedded single quotes doubled fails on the batched path:
`insert_data_to_table_batch` wraps each value verbatim (the escaping
block is commented out at lines 747-752), so the record value `O'Brien`
is written as the field `'O'Brien'` with an unescaped quote — escaping
would have produced `O''Brien`, as the single-row path
`insert_data_to_table` indeed does. -/
theorem c1_batch_value_not_escaped :
    (insert_data_to_table_batch "customers" [[("customer", "O'Brien")]] 250).map
        BatchResult.flushes = some [[["'O'Brien'"]]] ∧
    (insert_data_to_table "customers" [("customer", "O'Brien")]).values = ["'O''Brien'"] ∧
    escapeValue "O'Brien" = "O''Brien" ∧ "O'Brien" ≠ "O''Brien" := by
  decide

/-! ### Claim C2 -/

/-- C2 counterexample: for the 51-character device name `A` followed by
fifty `B`s, the code stores the FIRST 50 characters (`A` and forty-nine
`B`s), not the last 50 (fifty `B`s) as the claim states. -/
theorem c2_counterexample :
    (String.mk ('A' :: List.replicate 50 'B')).data.length = 51 ∧
    truncate_device (String.mk ('A' :: List.replicate 50 'B'))
      = String.mk ('A' :: List.replicate 49 'B') ∧
    (String.mk ('A' :: List.replicate 50 'B')).data.drop
        ((String.mk ('A' :: List.replicate 50 'B')).data.length - 50)
      = List.replicate 50 'B' ∧
    String.mk ('A' :: List.replicate 49 'B') ≠ String.mk (List.replicate 50 'B') := by
  decide

/-- C2 as amended: for every device-name string longer than 50
characters, the stored value is exactly the FIRST 50 characters of the
input (`device[:-(len(device)-50)]` keeps the head of the string). -/
theorem c2_truncate_keeps_first_fifty (device : String)
    (h : 50 < device.data.length) :
    truncate_device device = String.mk (device.data.take 50) := by
  have hcast : (((device.data.length : Int) - 50).natAbs : Nat) = device.data.length - 50 := by
    omega
  have hneg : ¬ (0 ≤ -((device.data.length - 50 : Nat) : Int)) := by omega
  have habs : (-((device.data.length - 50 : Nat) : Int)).natAbs = device.data.length - 50 := by
    omega
  have htake : device.data.length - (device.data.length - 50) = 50 := by omega
  simp only [truncate_device, pySliceUpto, hcast]
  rw [if_pos h, if_neg hneg, habs, htake]

/-- C2 witness: the amended theorem applied to the concrete 51-character
input of the counterexample. -/
theorem c2_truncate_keeps_first_fifty_witness :
    truncate_device (String.mk ('A' :: List.replicate 50 'B'))
      = String.mk ((String.mk ('A' :: List.replicate 50 'B')).data.take 50) :=
  c2_truncate_keeps_first_fifty (String.mk ('A' :: List.replicate 50 'B')) (by decide)

/-! ### Claim C3 -/

/-- C3: the device-name resolution does not fall back to `remotePort`
when `remoteDevice` is present but empty or `'localhost'`.  The guard
`(remoteDevice != '') or (remoteDevice != 'localhost')` (line 254) is a
tautology, so whenever both keys are present the code keeps
`remoteDevice` unconditionally: for `remoteDevice = 'localhost'` it
yields `'localhost'` (the claim says `'port7'`), and for an empty
`remoteDevice` it yields `''` (the claim says `'port7'`, and the
module's own comment says unconnected ports get `'none'`). -/
theorem c3_resolve_device_keeps_remote_device :
    resolveDevice (some "localhost") (some "port7") = "localhost" ∧
    resolveDevice (some "") (some "port7") = "" := by
  decide

/-! ### Claim C8 -/

/-- C8: with the web list `['w1', 'w1']` and an empty cache, the inner
web loop of `update_stack_data` performs its second `webs` lookup after
the first INSERT with no cache reload in between (the single
`__read_sql_tables_to_cache('webs', conn)` only runs after the loop), so
the stale lookup misses the row just written and `w1` is inserted twice. -/
theorem c8_webs_lookup_after_write_without_reload :
    cacheFreshTrace false (process_webs_block [] [] "1" ["w1", "w1"]).1 = false ∧
    (process_webs_block [] [] "1" ["w1", "w1"]).1
      = [WebOp.lookup "webs" "w1", WebOp.insert "webs" { name := "w1", webpoolid := "1" },
         WebOp.lookup "webs" "w1", WebOp.insert "webs" { name := "w1", webpoolid := "1" },
         WebOp.readCache "webs"] ∧
    (process_webs_block [] [] "1" ["w1", "w1"]).2.1
      = [{ name := "w1", webpoolid := "1" }, { name := "w1", webpoolid := "1" }] := by
  decide

/-! ### Claim C10 -/

/-- C10: neither writer ever includes a column named `ID` or
`datecreated` in the generated INSERT statement, whatever keys the
record dictionaries hold: both filter the key list with
`if column not in ('datecreated', 'ID')`. -/
theorem c10_id_and_datecreated_never_written :
    ∀ (table_name : String) (record_dict : Rec) (record_list : List Rec) (bs : Nat),
      ("ID" ∉ (insert_data_to_table table_name record_dict).columns ∧
        "datecreated" ∉ (insert_data_to_table table_name record_dict).columns) ∧
      (∀ res : BatchResult, insert_data_to_table_batch table_name record_list bs = some res →
        "ID" ∉ res.columns ∧ "datecreated" ∉ res.columns) := by
  intro table_name record_dict record_list bs
  refine ⟨⟨?_, ?_⟩, ?_⟩
  · simp [insert_data_to_table, keptColumns, List.mem_filter]
  · simp [insert_data_to_table, keptColumns, List.mem_filter]
  · intro res hres
    cases record_list with
    | nil => simp [insert_data_to_table_batch] at hres
    | cons r rest =>
      simp only [insert_data_to_table_batch, Option.some.injEq] at hres
      subst hres
      constructor
      · simp [keptColumns, List.mem_filter]
      · simp [keptColumns, List.mem_filter]

/-! ### Claim C5 -/

/-- C5: when the clear of the `customers` table succeeds, the table
after `update_customer_data` is exactly the formatted incoming record
set — one row per incoming record, whatever rows the table held before
the pass (the prior contents never reach the result). -/
theorem c5_customer_full_replace (prior : List CustomerRow) (incoming : List RawCustomer) :
    (update_customer_data prior incoming true).table
        = incoming.map format_customer_insert_data ∧
    (update_customer_data prior incoming true).table.length = incoming.length := by
  have htab : (update_customer_data prior incoming true).table
      = incoming.map format_customer_insert_data := by
    by_cases hpos : 0 < incoming.length
    · simp [update_customer_data, hpos]
    · have hnil : incoming = [] :=
        List.eq_nil_of_length_eq_zero (Nat.eq_zero_of_not_pos hpos)
      subst hnil
      simp [update_customer_data]
  refine ⟨htab, ?_⟩
  rw [htab, List.length_map]

/-- C6: a failed clear of the `customers` table stops processing
(`sys.exit`) with no insert batch issued, and on any pass an insert
batch into `customers` appears in the trace only when the clear
succeeded, positioned after the clear operation. -/
theorem c6_clear_failure_stops_customer_pass
    (prior : List CustomerRow) (incoming : List RawCustomer) :
    ((update_customer_data prior incoming false).halted = true ∧
      ∀ (t : String) (rows : List CustomerRow),
        CustomerOp.insertBatch t rows ∉ (update_customer_data prior incoming false).trace) ∧
    (∀ (clear_ok : Bool) (rows : List CustomerRow),
      CustomerOp.insertBatch "customers" rows ∈
          (update_customer_data prior incoming clear_ok).trace →
      clear_ok = true ∧
      (update_customer_data prior incoming clear_ok).trace.head?
          = some (CustomerOp.clearTable "customers") ∧
      (update_customer_data prior incoming clear_ok).trace.get? 1
          = some (CustomerOp.insertBatch "customers" rows)) := by
  constructor
  · constructor
    · rfl
    · intro t rows hmem
      simp [update_customer_data] at hmem
  · intro clear_ok rows hmem
    cases clear_ok with
    | false => simp [update_customer_data] at hmem
    | true =>
      by_cases hpos : 0 < incoming.length
      · have htr : (update_customer_data prior incoming true).trace
            = [CustomerOp.clearTable "customers",
               CustomerOp.insertBatch "customers" (incoming.map format_customer_insert_data),
               CustomerOp.readCache "customers"] := by
          simp [update_customer_data, hpos]
        rw [htr] at hmem
        simp only [List.mem_cons, List.not_mem_nil, or_false] at hmem
        rcases hmem with h | h | h
        · simp at h
        · injection h with h1 h2
          subst h2
          exact ⟨rfl, by rw [htr]; rfl, by rw [htr]; rfl⟩
        · simp at h
      · simp [update_customer_data, hpos] at hmem

/-! ### Claim C4 -/

/-- When the accumulated rows plus the remaining records stay strictly
below the block size (and there is at least one row), the loop never
reaches the flush condition and the trailing flush emits everything as
one statement. -/
theorem batchFlushLoop_no_flush (block_size : Nat) (columns_list : List String) :
    ∀ (record_list : List Rec) (acc : List (List String)),
      0 < acc.length + record_list.length →
      acc.length + record_list.length < block_size →
      batchFlushLoop block_size columns_list record_list acc
        = [acc ++ record_list.map (batchValueRow columns_list)] := by
  intro record_list
  induction record_list with
  | nil =>
    intro acc h0 _
    simp only [batchFlushLoop, List.map_nil, List.append_nil]
    rw [if_pos]
    simpa using h0
  | cons e rest ih =>
    intro acc h0 hlt
    have hlen : (acc ++ [batchValueRow columns_list e]).length = acc.length + 1 := by simp
    simp only [List.length_cons] at hlt
    have hlt2 : acc.length + 1 < block_size := by omega
    have hcond : ¬ ((acc ++ [batchValueRow columns_list e]).length % block_size = 0 ∧
        (acc ++ [batchValueRow columns_list e]).length ≠ 0) := by
      rw [hlen]
      rintro ⟨hmod, -⟩
      rw [Nat.mod_eq_of_lt hlt2] at hmod
      omega
    simp only [batchFlushLoop]
    rw [if_neg hcond]
    rw [ih (acc ++ [batchValueRow columns_list e]) (by rw [hlen]; omega) (by rw [hlen]; omega)]
    simp

/-- When the block size is reachable, the loop flushes exactly one full
block — the accumulated rows padded with the next records up to the
block size — and continues on the remaining records with an empty
accumulator. -/
theorem batchFlushLoop_flush_block (block_size : Nat) (columns_list : List String) :
    ∀ (record_list : List Rec) (acc : List (List String)),
      acc.length < block_size →
      block_size ≤ acc.length + record_list.length →
      batchFlushLoop block_size columns_list record_list acc
        = (acc ++ ((record_list.take (block_size - acc.length)).map (batchValueRow columns_list)))
            :: batchFlushLoop block_size columns_list
                (record_list.drop (block_size - acc.length)) [] := by
  intro record_list
  induction record_list with
  | nil =>
    intro acc h1 h2
    simp only [List.length_nil, Nat.add_zero] at h2
    omega
  | cons e rest ih =>
    intro acc h1 h2
    have hlen : (acc ++ [batchValueRow columns_list e]).length = acc.length + 1 := by simp
    simp only [List.length_cons] at h2
    by_cases hfull : acc.length + 1 = block_size
    · have hcond : (acc ++ [batchValueRow columns_list e]).length % block_size = 0 ∧
          (acc ++ [batchValueRow columns_list e]).length ≠ 0 := by
        rw [hlen, hfull]
        exact ⟨Nat.mod_self block_size, by omega⟩
      simp only [batchFlushLoop]
      rw [if_pos hcond]
      have hk : block_size - acc.length = 1 := by omega
      rw [hk]
      simp
    · have hlt2 : acc.length + 1 < block_size := by omega
      have hcond : ¬ ((acc ++ [batchValueRow columns_list e]).length % block_size = 0 ∧
          (acc ++ [batchValueRow columns_list e]).length ≠ 0) := by
        rw [hlen]
        rintro ⟨hmod, -⟩
        rw [Nat.mod_eq_of_lt hlt2] at hmod
        omega
      simp only [batchFlushLoop]
      rw [if_neg hcond]
      rw [ih (acc ++ [batchValueRow columns_list e]) (by rw [hlen]; omega)
        (by rw [hlen]; omega)]
      have hk : block_size - acc.length = (block_size - (acc.length + 1)) + 1 := by omega
      rw [hk]
      simp only [List.take_succ_cons, List.drop_succ_cons, List.map_cons, hlen]
      simp [List.append_assoc]

/-- C4: with the default block size 250, a list of exactly 250 records
produces exactly one flushed statement holding all 250 value rows, and a
list of 251 records produces exactly two flushes — the first with the
leading 250 rows, the second with the one remaining row — with flushed
rows in input order. -/
theorem c4_batch_boundary (table_name : String) (rows1 rows2 : List Rec)
    (h1 : rows1.length = 250) (h2 : rows2.length = 251) :
    (insert_data_to_table_batch table_name rows1 250).map BatchResult.flushes
      = some [rows1.map (batchValueRow (batchColumns rows1))] ∧
    (insert_data_to_table_batch table_name rows2 250).map BatchResult.flushes
      = some [(rows2.take 250).map (batchValueRow (batchColumns rows2)),
              (rows2.drop 250).map (batchValueRow (batchColumns rows2))] := by
  constructor
  · cases rows1 with
    | nil => simp at h1
    | cons r rest =>
      simp only [insert_data_to_table_batch, Option.map_some', Option.some.injEq]
      rw [batchFlushLoop_flush_block 250 (batchColumns (r :: rest)) (r :: rest) []
        (by simp) (by simp [h1])]
      have htake : (r :: rest).take (250 - ([] : List (List String)).length) = r :: rest := by
        simp only [List.length_nil, Nat.sub_zero]
        exact List.take_of_length_le (by omega)
      have hdrop : (r :: rest).drop (250 - ([] : List (List String)).length) = [] := by
        simp only [List.length_nil, Nat.sub_zero]
        exact List.drop_eq_nil_of_le (by omega)
      rw [htake, hdrop]
      simp [batchFlushLoop]
  · cases rows2 with
    | nil => simp at h2
    | cons r rest =>
      simp only [List.length_cons] at h2
      simp only [insert_data_to_table_batch, Option.map_some', Option.some.injEq]
      rw [batchFlushLoop_flush_block 250 (batchColumns (r :: rest)) (r :: rest) []
        (by simp) (by simp only [List.length_nil, List.length_cons, Nat.zero_add]; omega)]
      simp only [List.length_nil, Nat.sub_zero, List.nil_append]
      rw [batchFlushLoop_no_flush 250 (batchColumns (r :: rest)) ((r :: rest).drop 250) []
        (by simp only [List.length_nil, List.length_drop, List.length_cons, Nat.zero_add]
            omega)
        (by simp only [List.length_nil, List.length_drop, List.length_cons, Nat.zero_add]
            omega)]
      simp

/-- C4 witness: the theorem at a concrete 250-record and a concrete
251-record list. -/
theorem c4_batch_boundary_witness :
    (insert_data_to_table_batch "t" (List.replicate 250 [("a", "1")]) 250).map
        BatchResult.flushes
      = some [(List.replicate 250 [("a", "1")]).map
          (batchValueRow (batchColumns (List.replicate 250 [("a", "1")])))] ∧
    (insert_data_to_table_batch "t" (List.replicate 251 [("a", "1")]) 250).map
        BatchResult.flushes
      = some [((List.replicate 251 [("a", "1")]).take 250).map
            (batchValueRow (batchColumns (List.replicate 251 [("a", "1")]))),
          ((List.replicate 251 [("a", "1")]).drop 250).map
            (batchValueRow (batchColumns (List.replicate 251 [("a", "1")])))] :=
  c4_batch_boundary "t" (List.replicate 250 [("a", "1")]) (List.replicate 251 [("a", "1")])
    (by rw [List.length_replicate]) (by rw [List.length_replicate])

/-! ### Claim C9 -/

/-- The resolver fold only ever appends rows: every row of the starting
store is still in the folded store. -/
theorem mem_foldl_insert_missing (cache : List SwitchRow) :
    ∀ (names : List String) (st : List SwitchRow) (r : SwitchRow),
      r ∈ st → r ∈ names.foldl (insert_missing_switch cache) st := by
  intro names
  induction names with
  | nil => intro st r h; exact h
  | cons v rest ih =>
    intro st r h
    simp only [List.foldl_cons]
    apply ih
    unfold insert_missing_switch
    split
    · exact List.mem_append.mpr (Or.inl h)
    · exact h

/-- A name among the folded names that the cache does not hold gets a
row inserted: the folded store contains a row carrying that name. -/
theorem foldl_insert_missing_adds (cache : List SwitchRow) :
    ∀ (names : List String) (st : List SwitchRow) (v : String),
      v ∈ names → cache.filter (fun item => item.name = v) = [] →
      ∃ row ∈ names.foldl (insert_missing_switch cache) st, row.name = v := by
  intro names
  induction names with
  | nil => intro st v hv _; exact absurd hv (List.not_mem_nil v)
  | cons w rest ih =>
    intro st v hv hfil
    simp only [List.foldl_cons]
    rcases List.mem_cons.mp hv with heq | hrest
    · subst heq
      have hins : insert_missing_switch cache st v
          = st ++ [{ ID := next_id st, name := v }] := by
        simp [insert_missing_switch, hfil]
      refine ⟨{ ID := next_id st, name := v }, ?_, rfl⟩
      apply mem_foldl_insert_missing cache rest
      rw [hins]
      exact List.mem_append.mpr (Or.inr (by simp))
    · exact ih _ v hrest hfil

/-- C9: starting from a warm cache (`cache = store`), for a switchport
record whose `switchName` is not yet cached, the reference loop inserts
a new `switch` row (the name was genuinely absent from the store), the
cache is reloaded to exactly the post-insert store before any
fabric-entity row is built, and the value placed in the new row's switch
column is the stringified surrogate `ID` of the matching row of the
refreshed cache — never the bare switch name. -/
theorem c9_switch_resolved_through_refreshed_cache
    (cache store : List SwitchRow) (data : List String) (nm : String)
    (hmirror : cache = store) (hmem : nm ∈ data)
    (hnew : ∀ row ∈ cache, row.name ≠ nm) :
    (∀ row ∈ store, row.name ≠ nm) ∧
    (∃ row ∈ (update_sannav_switch_table cache store data).1, row.name = nm) ∧
    (update_sannav_switch_table cache store data).2
      = (update_sannav_switch_table cache store data).1 ∧
    (∃ row : SwitchRow,
      ((update_sannav_switch_table cache store data).2.filter
          (fun item => item.name = nm)).head? = some row ∧
      switch_column_value (update_sannav_switch_table cache store data).2 nm
        = some (toString row.ID)) := by
  have hfil : cache.filter (fun item => item.name = nm) = [] := by
    rw [List.filter_eq_nil_iff]
    intro a ha
    simpa using hnew a ha
  have hdedup : nm ∈ data.dedup := List.mem_dedup.mpr hmem
  have hadds := foldl_insert_missing_adds cache data.dedup store nm hdedup hfil
  refine ⟨fun row hrow => hnew row (hmirror ▸ hrow), hadds, rfl, ?_⟩
  obtain ⟨row0, hrow0, hname0⟩ := hadds
  have hmemfil : row0 ∈ (update_sannav_switch_table cache store data).2.filter
      (fun item => item.name = nm) := by
    rw [List.mem_filter]
    exact ⟨hrow0, by simp [hname0]⟩
  cases hcase : (update_sannav_switch_table cache store data).2.filter
      (fun item => item.name = nm) with
  | nil => rw [hcase] at hmemfil; exact absurd hmemfil (List.not_mem_nil row0)
  | cons a t =>
    exact ⟨a, rfl, by simp [switch_column_value, hcase]⟩

/-- C9 witness: the theorem at the concrete one-record source
`['sw1']` with an empty warm cache. -/
theorem c9_switch_resolved_through_refreshed_cache_witness :
    (∀ row ∈ ([] : List SwitchRow), row.name ≠ "sw1") ∧
    (∃ row ∈ (update_sannav_switch_table [] [] ["sw1"]).1, row.name = "sw1") ∧
    (update_sannav_switch_table [] [] ["sw1"]).2
      = (update_sannav_switch_table [] [] ["sw1"]).1 ∧
    (∃ row : SwitchRow,
      ((update_sannav_switch_table [] [] ["sw1"]).2.filter
          (fun item => item.name = "sw1")).head? = some row ∧
      switch_column_value (update_sannav_switch_table [] [] ["sw1"]).2 "sw1"
        = some (toString row.ID)) :=
  c9_switch_resolved_through_refreshed_cache [] [] ["sw1"] "sw1" rfl (by simp) (by simp)

/-! ### Claim C7 -/

theorem applyOneStackUpdate_Stack (r : StackRow) (u : String × String) :
    (applyOneStackUpdate r u).Stack = r.Stack := by
  unfold applyOneStackUpdate
  split_ifs <;> rfl

theorem applyStackUpdates_Stack (updates : List (String × String)) :
    ∀ r : StackRow, (applyStackUpdates updates r).Stack = r.Stack := by
  induction updates with
  | nil => intro r; rfl
  | cons u us ih =>
    intro r
    show (applyStackUpdates us (applyOneStackUpdate r u)).Stack = r.Stack
    rw [ih, applyOneStackUpdate_Stack]

/-- Applying exactly the differing columns of `a` against `b` to `b`
yields a row agreeing with `a` on all three mutable columns. -/
theorem mutEq_applyStackUpdates_diff (a b : StackRow) :
    mutEq a (applyStackUpdates (stacks_columns_update a b) b) := by
  by_cases h1 : a.locallocation = b.locallocation <;>
    by_cases h2 : a.prodlocation = b.prodlocation <;>
      by_cases h3 : a.remotelocation = b.remotelocation <;>
        simp [stacks_columns_update, h1, h2, h3, applyStackUpdates,
          applyOneStackUpdate, mutEq]

/-- A record whose three columns match the cached row produces an empty
update set. -/
theorem stacks_columns_update_eq_nil_of_mutEq {a b : StackRow} (h : mutEq a b) :
    stacks_columns_update a b = [] := by
  obtain ⟨h1, h2, h3⟩ := h
  simp [stacks_columns_update, h1, h2, h3]

/-- An empty update set means the three columns match. -/
theorem mutEq_of_stacks_columns_update_eq_nil {a b : StackRow}
    (h : stacks_columns_update a b = []) : mutEq a b := by
  by_cases h1 : a.locallocation = b.locallocation <;>
    by_cases h2 : a.prodlocation = b.prodlocation <;>
      by_cases h3 : a.remotelocation = b.remotelocation <;>
        simp [stacks_columns_update, h1, h2, h3, mutEq] at h ⊢

theorem searchStack_append (l l' : List StackRow) (k : String) :
    searchStack (l ++ l') k = searchStack l k ++ searchStack l' k := by
  simp [searchStack, List.filter_append]

/-- The head of a non-empty key search carries that key. -/
theorem searchStack_head_key {store : List StackRow} {k : String} {m : StackRow}
    {t : List StackRow} (h : searchStack store k = m :: t) : m.Stack = k := by
  have hm : m ∈ searchStack store k := by rw [h]; simp
  simpa using List.of_mem_filter hm

/-- Searching a mapped table, when the map preserves keys, searches the
original table and maps the result. -/
theorem searchStack_map (f : StackRow → StackRow) (hf : ∀ x, (f x).Stack = x.Stack)
    (l : List StackRow) (k : String) :
    searchStack (l.map f) k = (searchStack l k).map f := by
  induction l with
  | nil => rfl
  | cons a l ih =>
    simp only [List.map_cons, searchStack, List.filter_cons, hf a]
    by_cases ha : a.Stack = k
    · simp only [searchStack] at ih
      simp [ha, ih]
    · simp only [searchStack] at ih
      simp [ha, ih]

theorem cacheRel_refl (stale : List String) (l : List StackRow) : CacheRel stale l l :=
  List.forall₂_same.mpr (fun _ _ => ⟨rfl, Or.inl rfl⟩)

/-- A search misses the cache exactly when it misses the store: the two
hold rows with the same keys in the same positions. -/
theorem cacheRel_search_nil {stale : List String} {c s : List StackRow}
    (h : CacheRel stale c s) (k : String) :
    searchStack c k = [] ↔ searchStack s k = [] := by
  induction h with
  | nil => simp [searchStack]
  | @cons a b l₁ l₂ hab htl ih =>
    simp only [searchStack, List.filter_cons] at ih ⊢
    by_cases ha : a.Stack = k
    · have hb : b.Stack = k := by rw [← hab.1]; exact ha
      simp [ha, hb]
    · have hb : ¬ b.Stack = k := by rw [← hab.1]; exact ha
      simp [ha, hb, ih]

/-- For a key no UPDATE has touched since the last reload, the first
cache match is also the first store match. -/
theorem cacheRel_search_head {stale : List String} {c s : List StackRow}
    (h : CacheRel stale c s) (k : String) (hk : k ∉ stale) :
    ∀ {x : StackRow} {xs : List StackRow},
      searchStack c k = x :: xs → ∃ ys, searchStack s k = x :: ys := by
  induction h with
  | nil => intro x xs hx; simp [searchStack] at hx
  | @cons a b l₁ l₂ hab htl ih =>
    intro x xs hx
    by_cases ha : a.Stack = k
    · have hb : b.Stack = k := by rw [← hab.1]; exact ha
      have hab' : a = b := hab.2.resolve_right (fun hin => hk (ha ▸ hin))
      have hx' : a :: List.filter (fun item => decide (item.Stack = k)) l₁ = x :: xs := by
        simpa [searchStack, List.filter_cons, ha] using hx
      injection hx' with hax _
      refine ⟨List.filter (fun item => decide (item.Stack = k)) l₂, ?_⟩
      subst hax
      rw [← hab']
      simp [searchStack, List.filter_cons, ha]
    · have hb : ¬ b.Stack = k := by rw [← hab.1]; exact ha
      have hx' : searchStack l₁ k = x :: xs := by
        simpa [searchStack, List.filter_cons, ha] using hx
      obtain ⟨ys, hys⟩ := ih hx'
      refine ⟨ys, ?_⟩
      simpa [searchStack, List.filter_cons, hb] using hys

/-- Executing an UPDATE scoped to one key leaves the cache related to
the new store with that key added to the possibly-stale set. -/
theorem cacheRel_update {stale : List String} {c s : List StackRow}
    (h : CacheRel stale c s) (key : String) (u : List (String × String)) :
    CacheRel (key :: stale) c (runStackUpdateStatement s key u) := by
  unfold CacheRel runStackUpdateStatement
  rw [List.forall₂_map_right_iff]
  refine h.imp ?_
  intro a b hab
  by_cases hb : b.Stack = key
  · refine ⟨?_, ?_⟩
    · rw [if_pos hb, applyStackUpdates_Stack]
      exact hab.1
    · right
      rw [hab.1, hb]
      exact List.mem_cons_self _ _
  · refine ⟨by rw [if_neg hb]; exact hab.1, ?_⟩
    rcases hab.2 with heq | hin
    · left
      rw [if_neg hb]
      exact heq
    · right
      exact List.mem_cons_of_mem _ hin

theorem storeHas_append {store : List StackRow} {r : StackRecord}
    (h : StoreHas store r) (x : StackRow) : StoreHas (store ++ [x]) r := by
  obtain ⟨m, t, hm, he⟩ := h
  exact ⟨m, t ++ searchStack [x] r.stack, by rw [searchStack_append, hm]; rfl, he⟩

/-- An UPDATE scoped to a different key does not disturb a reconciled
record. -/
theorem storeHas_update_other {store : List StackRow} {r : StackRecord}
    {key : String} {u : List (String × String)} (hne : r.stack ≠ key)
    (h : StoreHas store r) : StoreHas (runStackUpdateStatement store key u) r := by
  obtain ⟨m, t, hm, he⟩ := h
  have hmk : m.Stack = r.stack := searchStack_head_key hm
  unfold runStackUpdateStatement
  have hf : ∀ x : StackRow,
      ((fun row => if row.Stack = key then applyStackUpdates u row else row) x).Stack
        = x.Stack := by
    intro x
    by_cases hx : x.Stack = key
    · simp [hx, applyStackUpdates_Stack]
    · simp [hx]
  refine ⟨m, t.map (fun row => if row.Stack = key then applyStackUpdates u row else row),
    ?_, he⟩
  rw [searchStack_map _ hf store r.stack, hm]
  simp only [List.map_cons]
  rw [if_neg (by rw [hmk]; exact hne)]

/-- Unfolding one record of the reconciliation loop. -/
theorem update_stack_data_cons (st : StackState) (r : StackRecord)
    (rest : List StackRecord) :
    update_stack_data st (r :: rest)
      = ((update_stack_data (process_stack_record st r).1 rest).1,
         (process_stack_record st r).2
           ++ (update_stack_data (process_stack_record st r).1 rest).2) := rfl

/-- After one reconciliation run over records with pairwise-distinct
natural keys, starting from a cache related to the store, the final
store reconciles every processed record, and records whose key the run
never touched keep their reconciled first row. -/
theorem update_stack_data_reconciles :
    ∀ (records : List StackRecord) (st : StackState) (stale : List String),
      CacheRel stale st.cache st.store →
      (records.map (fun r => r.stack)).Nodup →
      (∀ r ∈ records, r.stack ∉ stale) →
      (∀ r ∈ records, StoreHas (update_stack_data st records).1.store r) ∧
      (∀ r' : StackRecord, r'.stack ∉ records.map (fun r => r.stack) →
        StoreHas st.store r' → StoreHas (update_stack_data st records).1.store r') := by
  intro records
  induction records with
  | nil =>
    intro st stale _ _ _
    exact ⟨by simp, fun r' _ h => h⟩
  | cons r rest ih =>
    intro st stale hrel hnodup hstale
    have hnd1 : r.stack ∉ rest.map (fun x => x.stack) := by
      simp only [List.map_cons, List.nodup_cons] at hnodup
      exact hnodup.1
    have hnd2 : (rest.map (fun x => x.stack)).Nodup := by
      simp only [List.map_cons, List.nodup_cons] at hnodup
      exact hnodup.2
    have hstale_r : r.stack ∉ stale := hstale r (by simp)
    have hstale_rest : ∀ x ∈ rest, x.stack ∉ stale := fun x hx => hstale x (by simp [hx])
    rw [update_stack_data_cons]
    cases hsearch : searchStack st.cache r.stack with
    | nil =>
      have hpr : process_stack_record st r
          = ({ store := st.store ++ [stacks_data_formatted r],
               cache := st.store ++ [stacks_data_formatted r] }, []) := by
        simp [process_stack_record, hsearch]
      rw [hpr]
      have hrel1 : CacheRel stale (st.store ++ [stacks_data_formatted r])
          (st.store ++ [stacks_data_formatted r]) := cacheRel_refl _ _
      obtain ⟨hrec, hframe⟩ :=
        ih { store := st.store ++ [stacks_data_formatted r],
             cache := st.store ++ [stacks_data_formatted r] } stale hrel1 hnd2 hstale_rest
      have hsearch_store : searchStack st.store r.stack = [] :=
        (cacheRel_search_nil hrel r.stack).mp hsearch
      have hhas1 : StoreHas (st.store ++ [stacks_data_formatted r]) r := by
        refine ⟨stacks_data_formatted r, [], ?_, ⟨rfl, rfl, rfl⟩⟩
        rw [searchStack_append, hsearch_store]
        simp [searchStack, stacks_data_formatted]
      constructor
      · intro x hx
        rcases List.mem_cons.mp hx with hxr | hxrest
        · subst hxr
          exact hframe x hnd1 hhas1
        · exact hrec x hxrest
      · intro r' hr' hhas
        simp only [List.map_cons, List.mem_cons, not_or] at hr'
        exact hframe r' hr'.2 (storeHas_append hhas _)
    | cons c ctail =>
      by_cases hupd : stacks_columns_update (stacks_data_formatted r) c = []
      · have hpr : process_stack_record st r = (st, []) := by
          simp [process_stack_record, hsearch, hupd]
        rw [hpr]
        obtain ⟨hrec, hframe⟩ := ih st stale hrel hnd2 hstale_rest
        obtain ⟨ys, hys⟩ := cacheRel_search_head hrel r.stack hstale_r hsearch
        have hhas : StoreHas st.store r :=
          ⟨c, ys, hys, mutEq_of_stacks_columns_update_eq_nil hupd⟩
        constructor
        · intro x hx
          rcases List.mem_cons.mp hx with hxr | hxrest
          · subst hxr
            exact hframe x hnd1 hhas
          · exact hrec x hxrest
        · intro r' hr' hh
          simp only [List.map_cons, List.mem_cons, not_or] at hr'
          exact hframe r' hr'.2 hh
      · have hpr : process_stack_record st r
            = ({ store := runStackUpdateStatement st.store r.stack
                    (stacks_columns_update (stacks_data_formatted r) c),
                 cache := st.cache },
               [stacks_columns_update (stacks_data_formatted r) c]) := by
          simp [process_stack_record, hsearch, hupd]
        rw [hpr]
        have hrel1 : CacheRel (r.stack :: stale) st.cache
            (runStackUpdateStatement st.store r.stack
              (stacks_columns_update (stacks_data_formatted r) c)) :=
          cacheRel_update hrel r.stack _
        have hstale_rest' : ∀ x ∈ rest, x.stack ∉ (r.stack :: stale) := by
          intro x hx
          simp only [List.mem_cons, not_or]
          exact ⟨fun heq => hnd1 (heq ▸ List.mem_map_of_mem _ hx), hstale_rest x hx⟩
        obtain ⟨hrec, hframe⟩ :=
          ih { store := runStackUpdateStatement st.store r.stack
                  (stacks_columns_update (stacks_data_formatted r) c),
               cache := st.cache } (r.stack :: stale) hrel1 hnd2 hstale_rest'
        obtain ⟨ys, hys⟩ := cacheRel_search_head hrel r.stack hstale_r hsearch
        have hc_stack : c.Stack = r.stack := searchStack_head_key hys
        have hhas1 : StoreHas (runStackUpdateStatement st.store r.stack
            (stacks_columns_update (stacks_data_formatted r) c)) r := by
          unfold runStackUpdateStatement
          have hf : ∀ x : StackRow,
              ((fun row => if row.Stack = r.stack
                  then applyStackUpdates
                    (stacks_columns_update (stacks_data_formatted r) c) row
                  else row) x).Stack = x.Stack := by
            intro x
            by_cases hx : x.Stack = r.stack
            · simp [hx, applyStackUpdates_Stack]
            · simp [hx]
          have hsearch2 : searchStack (List.map (fun row => if row.Stack = r.stack
              then applyStackUpdates (stacks_columns_update (stacks_data_formatted r) c) row
              else row) st.store) r.stack
              = applyStackUpdates (stacks_columns_update (stacks_data_formatted r) c) c
                :: ys.map (fun row => if row.Stack = r.stack
                    then applyStackUpdates (stacks_columns_update (stacks_data_formatted r) c) row
                    else row) := by
            rw [searchStack_map _ hf st.store r.stack, hys]
            simp only [List.map_cons]
            rw [if_pos hc_stack]
          exact ⟨applyStackUpdates (stacks_columns_update (stacks_data_formatted r) c) c,
            ys.map (fun row => if row.Stack = r.stack
              then applyStackUpdates (stacks_columns_update (stacks_data_formatted r) c) row
              else row),
            hsearch2, mutEq_applyStackUpdates_diff (stacks_data_formatted r) c⟩
        constructor
        · intro x hx
          rcases List.mem_cons.mp hx with hxr | hxrest
          · subst hxr
            exact hframe x hnd1 hhas1
          · exact hrec x hxrest
        · intro r' hr' hh
          simp only [List.map_cons, List.mem_cons, not_or] at hr'
          exact hframe r' hr'.2 (storeHas_update_other hr'.1 hh)

/-- A run whose every record is already reconciled in the store, with a
freshly loaded cache, changes nothing and issues no UPDATE statement. -/
theorem update_stack_data_no_change :
    ∀ (records : List StackRecord) (store : List StackRow),
      (∀ r ∈ records, StoreHas store r) →
      update_stack_data { store := store, cache := store } records
        = ({ store := store, cache := store }, []) := by
  intro records
  induction records with
  | nil => intro store _; rfl
  | cons r rest ih =>
    intro store hhas
    obtain ⟨m, t, hm, he⟩ := hhas r (by simp)
    have hupd : stacks_columns_update (stacks_data_formatted r) m = [] :=
      stacks_columns_update_eq_nil_of_mutEq he
    have hpr : process_stack_record { store := store, cache := store } r
        = ({ store := store, cache := store }, []) := by
      simp [process_stack_record, hm, hupd]
    rw [update_stack_data_cons, hpr, ih store (fun x hx => hhas x (by simp [hx]))]
    rfl

/-- C7 counterexample: the same two-record source — the same stack key
twice, with differing `locallocation` — run twice from an empty store
still issues one UPDATE statement on the second run (the claim states
zero), because the cache is not reloaded after an UPDATE, so the
second occurrence was diffed against a stale row during the first run. -/
theorem c7_second_run_update_counterexample :
    (run_stack_pass
        (run_stack_pass []
          [{ stack := "S1", local_location := "A", prod_location := "B",
             remote_location := "C" },
           { stack := "S1", local_location := "A2", prod_location := "B",
             remote_location := "C" }]).1.store
        [{ stack := "S1", local_location := "A", prod_location := "B",
           remote_location := "C" },
         { stack := "S1", local_location := "A2", prod_location := "B",
           remote_location := "C" }]).2.length = 1 := by
  decide

/-- C7 as amended: the UPDATE's column set is exactly the set of mutable
columns whose incoming value differs from the cached row; a record with
no differing column issues no UPDATE and leaves the state untouched;
and — provided each stack natural key appears at most once in the
source data — running the reconciliation twice with identical source
data issues zero UPDATE statements on the second run. -/
theorem c7_stack_update_exact_columns_and_idempotence :
    (∀ (incoming table_entry : StackRow) (c v : String),
      (c, v) ∈ stacks_columns_update incoming table_entry ↔
        ((c = "locallocation" ∧ v = incoming.locallocation ∧
            incoming.locallocation ≠ table_entry.locallocation) ∨
         (c = "prodlocation" ∧ v = incoming.prodlocation ∧
            incoming.prodlocation ≠ table_entry.prodlocation) ∨
         (c = "remotelocation" ∧ v = incoming.remotelocation ∧
            incoming.remotelocation ≠ table_entry.remotelocation))) ∧
    (∀ (st : StackState) (record : StackRecord) (entry : StackRow)
        (t : List StackRow),
      searchStack st.cache record.stack = entry :: t →
      stacks_columns_update (stacks_data_formatted record) entry = [] →
      process_stack_record st record = (st, [])) ∧
    (∀ (store : List StackRow) (records : List StackRecord),
      (records.map (fun r => r.stack)).Nodup →
      (run_stack_pass (run_stack_pass store records).1.store records).2 = []) := by
  refine ⟨?_, ?_, ?_⟩
  · intro incoming table_entry c v
    by_cases h1 : incoming.locallocation = table_entry.locallocation <;>
      by_cases h2 : incoming.prodlocation = table_entry.prodlocation <;>
        by_cases h3 : incoming.remotelocation = table_entry.remotelocation <;>
          simp [stacks_columns_update, h1, h2, h3, Prod.ext_iff]
  · intro st record entry t hs hupd
    simp [process_stack_record, hs, hupd]
  · intro store records hnodup
    have h1 := update_stack_data_reconciles records { store := store, cache := store }
      [] (cacheRel_refl _ _) hnodup (by simp)
    have h2 := update_stack_data_no_change records
      (update_stack_data { store := store, cache := store } records).1.store h1.1
    simpa [run_stack_pass] using congrArg Prod.snd h2

end DataManagement
